import Mathlib

/-!
The traced Fibonacci computation and the resource resolver of otel-example.

A shallow embedding of `src/main.go`.

* `fibonacci` (lines 63-86) is embedded together with the operations it performs on the span
  it opens; the span is a log of operations (`SpanOp`), the deferred `span.End()` is the
  operation appended after the body on every exit.
* `helloHandler` (lines 48-53) is embedded as a function of the drawn number.
* `NewResource` (lines 89-123) is embedded as a function of the `RESOURCE_TYPE` selector and of
  what the two platform detectors answer.

Go's `uint` and `uint64` are 64 bits wide: they are natural numbers, additions on the
accumulators are reduced modulo `2 ^ 64`, and `int(n)` is the two's complement reading.
-/

namespace OtelExample

/-! ## Machine integers -/

/-- Addition of two `uint64` values: the sum modulo `2 ^ 64`. -/
def addUint64 (a b : Nat) : Nat := (a + b) % 2 ^ 64

/-- Go's conversion `int(n)` of a 64-bit `uint` to the signed 64-bit `int`: the same 64 bits
read in two's complement. -/
def intOfUint (n : Nat) : Int :=
  if n % 2 ^ 64 < 2 ^ 63 then ((n % 2 ^ 64 : Nat) : Int) else ((n % 2 ^ 64 : Nat) : Int) - 2 ^ 64

/-! ## Attributes and spans -/

/-- The values an attribute carries in this program: `attribute.Int` and `Key.String`. -/
inductive Value where
  | int (i : Int)
  | str (s : String)
  deriving DecidableEq, Repr

/-- An `attribute.KeyValue`. -/
structure KeyValue where
  key : String
  value : Value
  deriving DecidableEq, Repr

/-- The constructor `attribute.Int(k, v)`. -/
def attributeInt (k : String) (v : Int) : KeyValue := ⟨k, Value.int v⟩

/-- The status codes of `go.opentelemetry.io/otel/codes`. -/
inductive Code where
  | Unset
  | Error
  | Ok
  deriving DecidableEq, Repr

/-- The operations performed on one span, in program order. -/
inductive SpanOp where
  | Start (name : String)
  | SetStatus (code : Code) (description : String)
  | SetAttributes (kv : KeyValue)
  | End
  deriving DecidableEq, Repr

/-! ## `fibonacci` -/

/-- The two rolling accumulators of the loop, with two ghost fields that observe the
arithmetic: `adds` counts the `uint64` additions executed so far, `wrapped` records whether
one of them exceeded `2 ^ 64 - 1`. -/
structure Acc where
  n2 : Nat
  n1 : Nat
  adds : Nat
  wrapped : Bool
  deriving DecidableEq, Repr

/-- One execution of the loop body `n2, n1 = n1, n1+n2`. -/
def Acc.step (s : Acc) : Acc :=
  { n2 := s.n1
    n1 := addUint64 s.n1 s.n2
    adds := s.adds + 1
    wrapped := s.wrapped || decide (2 ^ 64 ≤ s.n1 + s.n2) }

/-- The loop `for i := uint(2); i < n; i++ { n2, n1 = n1, n1+n2 }`, entered with counter `i`
and accumulators `s`. The counter stays below `n`, so `i++` never wraps. -/
def fibLoop (n : Nat) (i : Nat) (s : Acc) : Acc :=
  if i < n then fibLoop n (i + 1) s.step else s
termination_by n - i

/-- The text `fmt.Sprintf("unsupported fibonacci number %d: too large", n)`; `%d` renders the
unsigned `n` in decimal. -/
def tooLarge (n : Nat) : String :=
  "unsupported fibonacci number " ++ toString n ++ ": too large"

/-- What one call of `fibonacci` produces: the returned pair (`err = none` is Go's `nil`),
the operations on the span it opened, and the ghost observations of its arithmetic. -/
structure FibResult where
  value : Nat
  err : Option String
  span : List SpanOp
  adds : Nat
  wrapped : Bool
  deriving DecidableEq, Repr

/-- The body of `fibonacci` after `TR.Start` and `defer span.End()`: `span` is the log of the
operations so far. -/
def fibonacciBody (n : Nat) (span : List SpanOp) : FibResult :=
  if n ≤ 1 then
    { value := n, err := none, span := span, adds := 0, wrapped := false }
  else if n > 93 then
    let span := span ++ [SpanOp.SetStatus Code.Error (tooLarge n)]
    let span := span ++ [SpanOp.SetAttributes (attributeInt "num" (intOfUint n))]
    { value := 0, err := some (tooLarge n), span := span, adds := 0, wrapped := false }
  else
    let s := fibLoop n 2 { n2 := 0, n1 := 1, adds := 0, wrapped := false }
    let span := span ++ [SpanOp.SetAttributes (attributeInt "num" (intOfUint n))]
    { value := addUint64 s.n2 s.n1
      err := none
      span := span
      adds := s.adds + 1
      wrapped := s.wrapped || decide (2 ^ 64 ≤ s.n2 + s.n1) }

/-- The function `fibonacci(ctx, n)`: the span is started, the body runs, and the deferred
`span.End()` runs when the body returns, whichever `return` it took. -/
def fibonacci (n : Nat) : FibResult :=
  let r := fibonacciBody n [SpanOp.Start "Fibonacci"]
  { r with span := r.span ++ [SpanOp.End] }

/-! ## `helloHandler` -/

/-- What a handler leaves on the `http.ResponseWriter`: `w.Write` without a preceding
`WriteHeader` sends status 200. -/
structure Response where
  status : Nat
  body : String
  deriving DecidableEq, Repr

/-- The line `w.Write([]byte(fmt.Sprintf("Number: %d Fib: %d\n", n, fib)))`, as a function of
the drawn number and of the pair `fibonacci` returned; `fib, _ := ...` binds the value and
discards the error. -/
def helloWrite (n : Nat) (ret : Nat × Option String) : Response :=
  match ret with
  | (fib, _) =>
    { status := 200, body := "Number: " ++ toString n ++ " Fib: " ++ toString fib ++ "\n" }

/-- The handler `helloHandler` for the drawn number `n = Intn(200)`. -/
def helloHandler (n : Nat) : Response :=
  let r := fibonacci n
  helloWrite n (r.value, r.err)

/-! ## Observers of a span log -/

/-- The attributes written to the span, in the order of the `SetAttributes` calls. -/
def attributesOf : List SpanOp → List KeyValue
  | [] => []
  | SpanOp.SetAttributes kv :: ops => kv :: attributesOf ops
  | _ :: ops => attributesOf ops

/-- The statuses set on the span, in the order of the `SetStatus` calls. -/
def statusesOf : List SpanOp → List (Code × String)
  | [] => []
  | SpanOp.SetStatus c d :: ops => (c, d) :: statusesOf ops
  | _ :: ops => statusesOf ops

/-- Whether an operation is a `Start`. -/
def isStart : SpanOp → Bool
  | SpanOp.Start _ => true
  | _ => false

/-- Whether an operation is an `End`. -/
def isEnd : SpanOp → Bool
  | SpanOp.End => true
  | _ => false

/-! ## The specification side of the computation -/

/-- The standard Fibonacci sequence over the naturals, in the words of the specification:
`F(0) = 0`, `F(1) = 1`, `F(k+2) = F(k+1) + F(k)`. -/
def F : Nat → Nat
  | 0 => 0
  | 1 => 1
  | k + 2 => F (k + 1) + F k

/-! ## Resources

`NewResource` is the code of `src/main.go`; the constructors and constants of the
OpenTelemetry SDK it calls (`attribute.NewSet`, `resource.NewWithAttributes`,
`resource.NewSchemaless`, `resource.Merge`, `semconv`) follow their upstream documentation. -/

/-- The package variable `SERVICE_NAME`. -/
def SERVICE_NAME : String := "OTELDemo"

/-- The key `semconv.ServiceNameKey`. -/
def ServiceNameKey : String := "service.name"

/-- The constant `semconv.SchemaURL` of `semconv/v1.4.0`. -/
def SchemaURL : String := "https://opentelemetry.io/schemas/1.4.0"

/-- A `resource.Resource`: a schema URL and an attribute set. -/
structure Resource where
  schemaURL : String
  attrs : List KeyValue
  deriving DecidableEq, Repr

/-- Adding one attribute to a set: an entry with the same key is replaced. -/
def setInsert (s : List KeyValue) (kv : KeyValue) : List KeyValue :=
  s.filter (fun x => !decide (x.key = kv.key)) ++ [kv]

/-- The set `attribute.NewSet(kvs...)`: one entry per key, the last value given for a key
wins. The order in which the SDK stores the entries is not represented. -/
def NewSet (kvs : List KeyValue) : List KeyValue :=
  kvs.foldl setInsert []

/-- The value a list of attributes binds to key `k`, if any; where a key occurs more than
once the last occurrence counts, as in `NewSet`. -/
def setValue (k : String) : List KeyValue → Option Value
  | [] => none
  | kv :: rest =>
    match setValue k rest with
    | some v => some v
    | none => if kv.key = k then some kv.value else none

/-- The keys of a list of attributes. -/
def keysOf (kvs : List KeyValue) : List String := kvs.map KeyValue.key

/-- The constructor `resource.NewWithAttributes(schemaURL, attrs...)`. -/
def NewWithAttributes (schemaURL : String) (kvs : List KeyValue) : Resource :=
  { schemaURL := schemaURL, attrs := NewSet kvs }

/-- The constructor `resource.NewSchemaless(attrs...)`. -/
def NewSchemaless (kvs : List KeyValue) : Resource :=
  NewWithAttributes "" kvs

/-- Modelled from the spec: `resource.Merge` belongs to the OpenTelemetry SDK and is not part
of `src/`. It is modelled as documented upstream: the result holds the attributes of both
resources, the value of `b` winning on a key both define
(`append(a.Attributes(), b.Attributes()...)` with last-value-wins); the schema URL is the
non-empty one of the two, and two different non-empty schema URLs are an error. -/
def Merge (a b : Resource) : Except String Resource :=
  if a.schemaURL = "" then
    Except.ok (NewWithAttributes b.schemaURL (a.attrs ++ b.attrs))
  else if b.schemaURL = "" then
    Except.ok (NewWithAttributes a.schemaURL (a.attrs ++ b.attrs))
  else if a.schemaURL = b.schemaURL then
    Except.ok (NewWithAttributes a.schemaURL (a.attrs ++ b.attrs))
  else
    Except.error "cannot merge resource due to conflicting Schema URL"

/-- The two platform detectors `NewResource` can call. -/
inductive Detector where
  | EC2
  | EKS
  deriving DecidableEq, Repr

/-- How a run of `NewResource` ends: `log.Fatalf` terminates the process, `return res` hands a
resource to the caller. -/
inductive Exit where
  | fatal (msg : String)
  | returned (res : Resource)
  deriving DecidableEq, Repr

/-- A run of `NewResource`: the detectors it invoked, in order, and how it ended. -/
structure Resolution where
  detected : List Detector
  exit : Exit
  deriving DecidableEq, Repr

/-- The baseline attribute `semconv.ServiceNameKey.String(SERVICE_NAME)`. -/
def serviceNameAttr : KeyValue := ⟨ServiceNameKey, Value.str SERVICE_NAME⟩

/-- The function `NewResource(ctx)`: `resType` is `os.Getenv("RESOURCE_TYPE")` (the empty
string when the variable is unset) and `detect d` is what `Detect(ctx)` of detector `d`
answers (`Except.error` for a non-nil `err`). `log.Fatalf("%s: %v", text, err)` ends the
process with the text, a colon and the error. -/
def NewResource (resType : String) (detect : Detector → Except String Resource) : Resolution :=
  if resType = "EC2" then
    match detect Detector.EC2 with
    | Except.error err =>
      { detected := [Detector.EC2], exit := Exit.fatal ("Failed to detect EC2 resource: " ++ err) }
    | Except.ok r =>
      match Merge r (NewSchemaless [serviceNameAttr]) with
      | Except.error err =>
        { detected := [Detector.EC2], exit := Exit.fatal ("Failed to merge resources: " ++ err) }
      | Except.ok res => { detected := [Detector.EC2], exit := Exit.returned res }
  else if resType = "EKS" then
    match detect Detector.EKS with
    | Except.error err =>
      { detected := [Detector.EKS], exit := Exit.fatal ("failed to detect EKS resource: " ++ err) }
    | Except.ok r =>
      match Merge r (NewSchemaless [serviceNameAttr]) with
      | Except.error err =>
        { detected := [Detector.EKS], exit := Exit.fatal ("Failed to merge resources: " ++ err) }
      | Except.ok res => { detected := [Detector.EKS], exit := Exit.returned res }
  else
    { detected := [], exit := Exit.returned (NewWithAttributes SchemaURL [serviceNameAttr]) }

/-- A detected resource that binds `service.name` itself, to test the merge on. -/
def exampleDetected : Resource :=
  { schemaURL := SchemaURL
    attrs := [⟨"cloud.provider", Value.str "aws"⟩, ⟨"service.name", Value.str "other"⟩] }

/-- Detectors that both answer `exampleDetected`. -/
def exampleDetect : Detector → Except String Resource :=
  fun _ => Except.ok exampleDetected

/-! ## Arithmetic of the loop -/

theorem F_eq_fib (n : Nat) : F n = Nat.fib n := by
  induction n using Nat.strong_induction_on with
  | _ n ih =>
    match n with
    | 0 => rfl
    | 1 => rfl
    | k + 2 =>
      rw [F, ih (k + 1) (by omega), ih k (by omega), Nat.fib_add_two]
      omega

theorem fib_93_lt : Nat.fib 93 < 2 ^ 64 := by norm_num

theorem fib_94_ge : 2 ^ 64 ≤ Nat.fib 94 := by norm_num

theorem fib_lt_of_le_93 {i : Nat} (h : i ≤ 93) : Nat.fib i < 2 ^ 64 :=
  lt_of_le_of_lt (Nat.fib_mono h) fib_93_lt

theorem fib_ge_of_ge_94 {i : Nat} (h : 94 ≤ i) : 2 ^ 64 ≤ Nat.fib i :=
  le_trans fib_94_ge (Nat.fib_mono h)

/-- The loop invariant: entered at counter `i` with `(n2, n1) = (fib (i-2), fib (i-1))` and no
wrap so far, the loop leaves `(fib (n-2), fib (n-1))` after `n - i` further additions, none
of which wraps. -/
theorem fibLoop_spec (n : Nat) (hn : n ≤ 93) :
    ∀ (d i : Nat) (s : Acc), n - i = d → 2 ≤ i → i ≤ n →
      s.n2 = Nat.fib (i - 2) → s.n1 = Nat.fib (i - 1) → s.wrapped = false →
      fibLoop n i s =
        { n2 := Nat.fib (n - 2), n1 := Nat.fib (n - 1), adds := s.adds + (n - i),
          wrapped := false } := by
  intro d
  induction d with
  | zero =>
    intro i s hd h2 hin h2e h1e hw
    have hi : i = n := by omega
    subst hi
    rw [fibLoop, if_neg (lt_irrefl _)]
    cases s
    simp_all
  | succ d ih =>
    intro i s hd h2 hin h2e h1e hw
    have hlt : i < n := by omega
    rw [fibLoop, if_pos hlt]
    have hsum : s.n1 + s.n2 = Nat.fib i := by
      rw [h2e, h1e]
      obtain ⟨j, rfl⟩ : ∃ j, i = j + 2 := ⟨i - 2, by omega⟩
      simp [Nat.fib_add_two, Nat.add_comm]
    have hb : Nat.fib i < 2 ^ 64 := fib_lt_of_le_93 (by omega)
    rw [ih (i + 1) s.step (by omega) (by omega) (by omega)]
    · simp only [Acc.step]
      congr 1
      omega
    · simp only [Acc.step, Nat.add_sub_cancel]
      rw [h1e]
      congr 1
    · simp only [Acc.step, addUint64, Nat.add_sub_cancel]
      rw [hsum, Nat.mod_eq_of_lt hb]
    · simp only [Acc.step, hw, Bool.false_or, decide_eq_false_iff_not, not_le]
      rw [hsum]
      exact hb

/-! ## The three exits of `fibonacci` -/

theorem intOfUint_of_lt {n : Nat} (h : n < 2 ^ 63) : intOfUint n = (n : Int) := by
  have h1 : n % 2 ^ 64 = n := Nat.mod_eq_of_lt (by omega)
  unfold intOfUint
  rw [h1, if_pos h]

theorem intOfUint_of_ge {n : Nat} (h : 2 ^ 63 ≤ n) (hn : n < 2 ^ 64) :
    intOfUint n = (n : Int) - 2 ^ 64 := by
  have h1 : n % 2 ^ 64 = n := Nat.mod_eq_of_lt hn
  unfold intOfUint
  rw [h1, if_neg (not_lt.mpr h)]

/-- The exit `if n <= 1 { return uint64(n), nil }`. -/
theorem fibonacci_small {n : Nat} (h : n ≤ 1) :
    fibonacci n =
      { value := n, err := none, span := [SpanOp.Start "Fibonacci", SpanOp.End],
        adds := 0, wrapped := false } := by
  simp [fibonacci, fibonacciBody, h]

/-- The exit `if n > 93 { ... return 0, fmt.Errorf(...) }`. -/
theorem fibonacci_large {n : Nat} (h : 93 < n) :
    fibonacci n =
      { value := 0, err := some (tooLarge n),
        span := [SpanOp.Start "Fibonacci", SpanOp.SetStatus Code.Error (tooLarge n),
          SpanOp.SetAttributes (attributeInt "num" (intOfUint n)), SpanOp.End],
        adds := 0, wrapped := false } := by
  have h1 : ¬ n ≤ 1 := by omega
  simp [fibonacci, fibonacciBody, h1, h]

/-- The exit `return n2 + n1, nil` after the loop. -/
theorem fibonacci_mid {n : Nat} (h2 : 2 ≤ n) (h : n ≤ 93) :
    fibonacci n =
      { value := Nat.fib n, err := none,
        span := [SpanOp.Start "Fibonacci",
          SpanOp.SetAttributes (attributeInt "num" (n : Int)), SpanOp.End],
        adds := n - 1, wrapped := false } := by
  have h1 : ¬ n ≤ 1 := by omega
  have h93 : ¬ 93 < n := by omega
  have hloop := fibLoop_spec n h (n - 2) 2 { n2 := 0, n1 := 1, adds := 0, wrapped := false }
    rfl (le_refl 2) h2 rfl rfl rfl
  have hsum : Nat.fib (n - 2) + Nat.fib (n - 1) = Nat.fib n := by
    obtain ⟨j, rfl⟩ : ∃ j, n = j + 2 := ⟨n - 2, by omega⟩
    simp [Nat.fib_add_two]
  have hb : Nat.fib n < 2 ^ 64 := fib_lt_of_le_93 h
  have hint : intOfUint n = (n : Int) := intOfUint_of_lt (by omega)
  simp only [fibonacci, fibonacciBody, if_neg h1, gt_iff_lt, if_neg h93, hloop, addUint64, hsum,
    Nat.mod_eq_of_lt hb, hint]
  simp only [List.singleton_append, List.cons_append, List.nil_append, Bool.false_or,
    FibResult.mk.injEq, true_and, decide_eq_false_iff_not, not_le]
  exact ⟨by omega, hb⟩

/-- On the whole accepted range the returned value is the Fibonacci number. -/
theorem fibonacci_value_of_le {n : Nat} (h : n ≤ 93) : (fibonacci n).value = F n := by
  rcases Nat.lt_or_ge n 2 with hlt | hge
  · rw [fibonacci_small (show n ≤ 1 by omega)]
    interval_cases n <;> rfl
  · rw [fibonacci_mid hge h]
    exact (F_eq_fib n).symm

/-! ## Claims about `fibonacci` -/

/-- C1: for every `n` with `0 ≤ n ≤ 93`, `fibonacci` returns `(F n, nil)`, `F` the standard
Fibonacci sequence, and none of the `uint64` additions it executes (in the loop or in the
final `n2 + n1`) wraps around; in particular `fibonacci 0` is `0` and `fibonacci 1` is `1`. -/
theorem fibonacci_exact (n : Nat) (h : n ≤ 93) :
    (fibonacci n).value = F n ∧ (fibonacci n).err = none ∧ (fibonacci n).wrapped = false ∧
      (fibonacci 0).value = 0 ∧ (fibonacci 1).value = 1 := by
  have h0 : (fibonacci 0).value = 0 := by rw [fibonacci_small (by omega)]
  have h1 : (fibonacci 1).value = 1 := by rw [fibonacci_small (le_refl 1)]
  rcases Nat.lt_or_ge n 2 with hlt | hge
  · have hs := fibonacci_small (show n ≤ 1 by omega)
    exact ⟨fibonacci_value_of_le h, by rw [hs], by rw [hs], h0, h1⟩
  · have hm := fibonacci_mid hge h
    exact ⟨fibonacci_value_of_le h, by rw [hm], by rw [hm], h0, h1⟩

theorem fibonacci_exact_witness :
    (93 : Nat) ≤ 93 ∧ (fibonacci 93).value = F 93 ∧ (fibonacci 93).err = none ∧
      (fibonacci 93).wrapped = false ∧ (fibonacci 0).value = 0 ∧ (fibonacci 1).value = 1 :=
  ⟨le_refl 93, fibonacci_exact 93 (le_refl 93)⟩

/-- C2: for every unsigned 64-bit `n`, `fibonacci` returns a non-nil error if and only if
`n > 93`; when `n > 93` the returned value is `0`, the error message is exactly
"unsupported fibonacci number <n>: too large" with `n` in decimal, and no addition has been
executed: the accumulation loop is never entered. -/
theorem fibonacci_error_iff (n : Nat) (_hn : n < 2 ^ 64) :
    ((fibonacci n).err ≠ none ↔ 93 < n) ∧
      (93 < n →
        (fibonacci n).value = 0 ∧
        (fibonacci n).err = some ("unsupported fibonacci number " ++ toString n ++ ": too large") ∧
        (fibonacci n).adds = 0) := by
  constructor
  · constructor
    · intro herr
      by_contra hle
      apply herr
      rcases Nat.lt_or_ge n 2 with hlt | hge
      · rw [fibonacci_small (by omega)]
      · rw [fibonacci_mid hge (by omega)]
    · intro hgt
      rw [fibonacci_large hgt]
      simp
  · intro hgt
    rw [fibonacci_large hgt]
    exact ⟨rfl, rfl, rfl⟩

theorem fibonacci_error_iff_witness :
    (94 : Nat) < 2 ^ 64 ∧ (((fibonacci 94).err ≠ none ↔ 93 < 94) ∧
      (93 < 94 →
        (fibonacci 94).value = 0 ∧
        (fibonacci 94).err = some ("unsupported fibonacci number " ++ toString 94 ++ ": too large") ∧
        (fibonacci 94).adds = 0)) :=
  ⟨by norm_num, fibonacci_error_iff 94 (by norm_num)⟩

/-- C3: the threshold 93 is the representability boundary of `uint64`: `F 93 < 2 ^ 64` and
`F n ≥ 2 ^ 64` for every `n ≥ 94`; hence `fibonacci` returns an error exactly for the `n`
whose Fibonacci number does not fit in 64 unsigned bits, and never for a representable
one. -/
theorem guard_is_uint64_boundary (n : Nat) :
    F 93 < 2 ^ 64 ∧ (94 ≤ n → 2 ^ 64 ≤ F n) ∧
      ((fibonacci n).err ≠ none ↔ 2 ^ 64 ≤ F n) ∧
      (F n < 2 ^ 64 → (fibonacci n).err = none) := by
  have hiff : (fibonacci n).err ≠ none ↔ 2 ^ 64 ≤ F n := by
    rw [F_eq_fib]
    rcases Nat.lt_or_ge 93 n with hgt | hle
    · rw [fibonacci_large hgt]
      simpa using fib_ge_of_ge_94 hgt
    · have hb := fib_lt_of_le_93 hle
      rcases Nat.lt_or_ge n 2 with hlt | hge
      · rw [fibonacci_small (by omega)]
        simpa using hb
      · rw [fibonacci_mid hge hle]
        simpa using hb
  refine ⟨?_, ?_, hiff, ?_⟩
  · rw [F_eq_fib]
    exact fib_93_lt
  · intro h
    rw [F_eq_fib]
    exact fib_ge_of_ge_94 h
  · intro hlt
    by_contra hne
    exact absurd (hiff.mp hne) (not_le.mpr hlt)

theorem guard_is_uint64_boundary_witness :
    F 93 < 2 ^ 64 ∧ ((94 : Nat) ≤ 94 → 2 ^ 64 ≤ F 94) ∧
      ((fibonacci 94).err ≠ none ↔ 2 ^ 64 ≤ F 94) ∧
      (F 94 < 2 ^ 64 → (fibonacci 94).err = none) :=
  guard_is_uint64_boundary 94

/-- C4, evaluated where it fails: for `n = 0` and for `n = 1` the call returns through
`if n <= 1 { return uint64(n), nil }` and writes no attribute to its span, the only
operations are `Start` and the deferred `End`; for `n = 2` the attribute `num = 2` is
written. -/
theorem fibonacci_le_one_writes_no_attribute :
    attributesOf (fibonacci 0).span = [] ∧ attributesOf (fibonacci 1).span = [] ∧
      (fibonacci 0).span = [SpanOp.Start "Fibonacci", SpanOp.End] ∧
      (fibonacci 1).span = [SpanOp.Start "Fibonacci", SpanOp.End] ∧
      attributesOf (fibonacci 2).span = [attributeInt "num" 2] := by
  refine ⟨?_, ?_, ?_, ?_, ?_⟩
  · rw [fibonacci_small (by omega)]; rfl
  · rw [fibonacci_small (by omega)]; rfl
  · rw [fibonacci_small (by omega)]
  · rw [fibonacci_small (by omega)]
  · rw [fibonacci_mid (le_refl 2) (by omega)]; rfl

/-- C5: for every `n > 93`, `fibonacci` sets the status of its span exactly once, to `Error`,
with a description that contains the decimal rendering of `n` and equals the message of the
returned error; the status is set before the span is ended. -/
theorem overflow_sets_error_status_once (n : Nat) (h : 93 < n) :
    ∃ d : String,
      statusesOf (fibonacci n).span = [(Code.Error, d)] ∧
      (fibonacci n).err = some d ∧
      (∃ pre post : String, d = pre ++ toString n ++ post) ∧
      (∃ before after : List SpanOp,
        (fibonacci n).span = before ++ SpanOp.SetStatus Code.Error d :: after ∧
        SpanOp.End ∉ before ∧ after.getLast? = some SpanOp.End) := by
  refine ⟨tooLarge n, ?_, ?_, ⟨"unsupported fibonacci number ", ": too large", rfl⟩, ?_⟩
  · rw [fibonacci_large h]; rfl
  · rw [fibonacci_large h]
  · refine ⟨[SpanOp.Start "Fibonacci"],
      [SpanOp.SetAttributes (attributeInt "num" (intOfUint n)), SpanOp.End], ?_, ?_, ?_⟩
    · rw [fibonacci_large h]; rfl
    · simp
    · simp

theorem overflow_sets_error_status_once_witness :
    (93 : Nat) < 94 ∧
    ∃ d : String,
      statusesOf (fibonacci 94).span = [(Code.Error, d)] ∧
      (fibonacci 94).err = some d ∧
      (∃ pre post : String, d = pre ++ toString 94 ++ post) ∧
      (∃ before after : List SpanOp,
        (fibonacci 94).span = before ++ SpanOp.SetStatus Code.Error d :: after ∧
        SpanOp.End ∉ before ∧ after.getLast? = some SpanOp.End) :=
  ⟨by norm_num, overflow_sets_error_status_once 94 (by norm_num)⟩

/-- C6 as stated fails: for `n = 2 ^ 63 = 9223372036854775808` the attribute `num` written
to the span is `int(n) = -9223372036854775808`, which is not `n`, while the status
description and the error message print `9223372036854775808`. -/
theorem overflow_attribute_wraps_at_two_pow_63 :
    attributesOf (fibonacci 9223372036854775808).span =
        [attributeInt "num" (-9223372036854775808)] ∧
      (-9223372036854775808 : Int) ≠ ((9223372036854775808 : Nat) : Int) ∧
      (fibonacci 9223372036854775808).err =
        some "unsupported fibonacci number 9223372036854775808: too large" ∧
      statusesOf (fibonacci 9223372036854775808).span =
        [(Code.Error, "unsupported fibonacci number 9223372036854775808: too large")] := by
  decide

/-- C6, amended: for every `n` with `93 < n < 2 ^ 64` the one attribute `fibonacci` attaches
is `num = int(n)`, the signed reading `attribute.Int` takes, and the status description
prints `n` itself. For `93 < n < 2 ^ 63` the attribute is numerically `n`, the number the
message prints; for `2 ^ 63 ≤ n < 2 ^ 64` it is `n - 2 ^ 64`. -/
theorem overflow_attribute_is_signed_n (n : Nat) (h : 93 < n) (hn : n < 2 ^ 64) :
    attributesOf (fibonacci n).span = [attributeInt "num" (intOfUint n)] ∧
      statusesOf (fibonacci n).span =
        [(Code.Error, "unsupported fibonacci number " ++ toString n ++ ": too large")] ∧
      (n < 2 ^ 63 → attributesOf (fibonacci n).span = [attributeInt "num" (n : Int)]) ∧
      (2 ^ 63 ≤ n →
        attributesOf (fibonacci n).span = [attributeInt "num" ((n : Int) - 2 ^ 64)]) := by
  have hlog : attributesOf (fibonacci n).span = [attributeInt "num" (intOfUint n)] := by
    rw [fibonacci_large h]; rfl
  refine ⟨hlog, ?_, ?_, ?_⟩
  · rw [fibonacci_large h]; rfl
  · intro hlt
    rw [hlog, intOfUint_of_lt hlt]
  · intro hge
    rw [hlog, intOfUint_of_ge hge hn]

theorem overflow_attribute_is_signed_n_witness :
    (93 : Nat) < 150 ∧ (150 : Nat) < 2 ^ 64 ∧
    (attributesOf (fibonacci 150).span = [attributeInt "num" (intOfUint 150)] ∧
      statusesOf (fibonacci 150).span =
        [(Code.Error, "unsupported fibonacci number " ++ toString 150 ++ ": too large")] ∧
      ((150 : Nat) < 2 ^ 63 →
        attributesOf (fibonacci 150).span = [attributeInt "num" ((150 : Nat) : Int)]) ∧
      (2 ^ 63 ≤ (150 : Nat) →
        attributesOf (fibonacci 150).span =
          [attributeInt "num" (((150 : Nat) : Int) - 2 ^ 64)])) :=
  ⟨by norm_num, by norm_num, overflow_attribute_is_signed_n 150 (by norm_num) (by norm_num)⟩

/-- C7: for every `n`, on each exit of `fibonacci`, the operations on the span it opened are
`Start "Fibonacci"`, then operations that are neither `Start` nor `End`, then `End`: exactly
one `Start`, exactly one `End`, `End` is the last operation, and the span that is ended is
the one `fibonacci` started. -/
theorem span_started_once_ended_last (n : Nat) :
    ∃ body : List SpanOp,
      (fibonacci n).span = SpanOp.Start "Fibonacci" :: (body ++ [SpanOp.End]) ∧
      (∀ op ∈ body, isStart op = false ∧ isEnd op = false) ∧
      ((fibonacci n).span.filter isStart).length = 1 ∧
      ((fibonacci n).span.filter isEnd).length = 1 ∧
      (fibonacci n).span.getLast? = some SpanOp.End := by
  rcases Nat.lt_or_ge 93 n with hgt | hle
  · rw [fibonacci_large hgt]
    exact ⟨[SpanOp.SetStatus Code.Error (tooLarge n),
      SpanOp.SetAttributes (attributeInt "num" (intOfUint n))], by simp, by simp [isStart, isEnd],
      by simp [isStart], by simp [isEnd], by simp⟩
  · rcases Nat.lt_or_ge n 2 with hlt | hge
    · rw [fibonacci_small (by omega)]
      exact ⟨[], by simp, by simp, by simp [isStart], by simp [isEnd], by simp⟩
    · rw [fibonacci_mid hge hle]
      exact ⟨[SpanOp.SetAttributes (attributeInt "num" (n : Int))], by simp,
        by simp [isStart, isEnd], by simp [isStart], by simp [isEnd], by simp⟩

/-! ## Claims about `helloHandler` -/

/-- C10 as stated fails: for the drawn number 94, `fibonacci` returns an error, and
`helloHandler` writes the status 200 and the body "Number: 94 Fib: 0\n", the very response
it writes when the same value comes with a nil error. -/
theorem helloHandler_swallows_error_94 :
    (93 : Nat) < 94 ∧ (94 : Nat) < 200 ∧ (fibonacci 94).err ≠ none ∧
      helloHandler 94 = helloWrite 94 ((fibonacci 94).value, none) ∧
      helloHandler 94 = { status := 200, body := "Number: 94 Fib: 0\n" } := by
  decide

/-- C10, amended: `helloHandler` discards the error of `fibonacci`. For every drawn `n` with
`93 < n < 200` it writes status 200 and the body "Number: <n> Fib: 0\n", the same response
whatever error accompanies the value; for every drawn `n` with `0 ≤ n ≤ 93` the body is
exactly "Number: <n> Fib: <F(n)>\n". -/
theorem helloHandler_response (n : Nat) (_h : n < 200) :
    (93 < n →
      helloHandler n =
        { status := 200, body := "Number: " ++ toString n ++ " Fib: " ++ toString 0 ++ "\n" } ∧
      ∀ e : Option String, helloWrite n ((fibonacci n).value, e) = helloHandler n) ∧
    (n ≤ 93 →
      helloHandler n =
        { status := 200,
          body := "Number: " ++ toString n ++ " Fib: " ++ toString (F n) ++ "\n" }) := by
  constructor
  · intro hgt
    refine ⟨?_, fun e => rfl⟩
    simp only [helloHandler, helloWrite]
    rw [fibonacci_large hgt]
  · intro hle
    simp only [helloHandler, helloWrite]
    rw [fibonacci_value_of_le hle]

theorem helloHandler_response_witness :
    (150 : Nat) < 200 ∧
    ((93 < 150 →
      helloHandler 150 =
        { status := 200, body := "Number: " ++ toString 150 ++ " Fib: " ++ toString 0 ++ "\n" } ∧
      ∀ e : Option String, helloWrite 150 ((fibonacci 150).value, e) = helloHandler 150) ∧
    (150 ≤ 93 →
      helloHandler 150 =
        { status := 200,
          body := "Number: " ++ toString 150 ++ " Fib: " ++ toString (F 150) ++ "\n" })) :=
  ⟨by norm_num, helloHandler_response 150 (by norm_num)⟩

/-! ## Attribute sets -/

theorem setValue_cons (k : String) (kv : KeyValue) (rest : List KeyValue) :
    setValue k (kv :: rest) =
      (setValue k rest).or (if kv.key = k then some kv.value else none) := by
  simp only [setValue]
  cases setValue k rest <;> rfl

theorem setValue_append (k : String) (xs ys : List KeyValue) :
    setValue k (xs ++ ys) = (setValue k ys).or (setValue k xs) := by
  induction xs with
  | nil => cases h : setValue k ys <;> simp [setValue, h]
  | cons x xs ih =>
    rw [List.cons_append, setValue_cons, ih, setValue_cons]
    cases setValue k ys <;> simp

theorem setValue_filter_ne {k k' : String} (h : k ≠ k') (xs : List KeyValue) :
    setValue k (xs.filter (fun x => !decide (x.key = k'))) = setValue k xs := by
  induction xs with
  | nil => rfl
  | cons x xs ih =>
    rw [List.filter_cons]
    by_cases hx : x.key = k'
    · have hk : ¬ x.key = k := fun e => h (e.symm.trans hx)
      rw [setValue_cons, if_neg hk]
      simp [hx, ih]
    · simp [hx, setValue_cons, ih]

theorem setValue_setInsert (k : String) (s : List KeyValue) (kv : KeyValue) :
    setValue k (setInsert s kv) = if kv.key = k then some kv.value else setValue k s := by
  unfold setInsert
  rw [setValue_append, setValue_cons]
  by_cases hk : kv.key = k
  · simp [hk, setValue]
  · have hne : k ≠ kv.key := fun e => hk e.symm
    simp [hk, setValue, setValue_filter_ne hne]

theorem setValue_foldl (k : String) (kvs : List KeyValue) :
    ∀ s : List KeyValue, setValue k (kvs.foldl setInsert s) = setValue k (s ++ kvs) := by
  induction kvs with
  | nil => intro s; simp
  | cons kv kvs ih =>
    intro s
    rw [List.foldl_cons, ih, setValue_append, setValue_append, setValue_setInsert,
      setValue_cons]
    cases setValue k kvs <;> by_cases hk : kv.key = k <;> simp [hk]

theorem setValue_NewSet (k : String) (kvs : List KeyValue) :
    setValue k (NewSet kvs) = setValue k kvs := by
  unfold NewSet
  rw [setValue_foldl]
  simp

theorem mem_keysOf_iff (k : String) (kvs : List KeyValue) :
    k ∈ keysOf kvs ↔ (setValue k kvs).isSome = true := by
  induction kvs with
  | nil => simp [keysOf, setValue]
  | cons kv kvs ih =>
    have ih2 : k ∈ List.map KeyValue.key kvs ↔ (setValue k kvs).isSome = true := ih
    rw [setValue_cons]
    simp only [keysOf, List.map_cons, List.mem_cons, ih2]
    by_cases hk : k = kv.key
    · cases setValue k kvs <;> simp [hk]
    · have hk2 : ¬ kv.key = k := fun e => hk e.symm
      cases setValue k kvs <;> simp [hk, hk2]

theorem keysOf_setInsert_nodup (s : List KeyValue) (kv : KeyValue) (h : (keysOf s).Nodup) :
    (keysOf (setInsert s kv)).Nodup := by
  unfold keysOf setInsert at *
  rw [List.map_append, List.nodup_append]
  refine ⟨?_, by simp, ?_⟩
  · exact (List.Nodup.sublist (List.Sublist.map _ (List.filter_sublist _)) h)
  · intro a ha hb
    simp only [List.map_cons, List.map_nil, List.mem_singleton] at hb
    subst hb
    simp only [List.mem_map, List.mem_filter] at ha
    obtain ⟨x, ⟨_, hx⟩, hxe⟩ := ha
    simp [hxe] at hx

theorem keysOf_foldl_nodup (kvs : List KeyValue) :
    ∀ s : List KeyValue, (keysOf s).Nodup → (keysOf (kvs.foldl setInsert s)).Nodup := by
  induction kvs with
  | nil => intro s h; exact h
  | cons kv kvs ih => intro s h; exact ih _ (keysOf_setInsert_nodup s kv h)

theorem keysOf_NewSet_nodup (kvs : List KeyValue) : (keysOf (NewSet kvs)).Nodup :=
  keysOf_foldl_nodup kvs [] (by simp [keysOf])

/-- Merging with a schemaless baseline never fails: the result keeps the schema URL of the
detected resource and holds the attributes of both. -/
theorem Merge_NewSchemaless (r : Resource) (kvs : List KeyValue) :
    Merge r (NewSchemaless kvs) =
      Except.ok (NewWithAttributes r.schemaURL (r.attrs ++ NewSet kvs)) := by
  unfold Merge NewSchemaless
  by_cases h : r.schemaURL = ""
  · simp [h, NewWithAttributes]
  · simp [h, NewWithAttributes]

/-- What `NewResource` returns once the selected detector has answered `D`. -/
theorem NewResource_of_detected (resType : String) (detect : Detector → Except String Resource)
    (D : Resource)
    (h : (resType = "EC2" ∧ detect Detector.EC2 = Except.ok D) ∨
      (resType = "EKS" ∧ detect Detector.EKS = Except.ok D)) :
    (NewResource resType detect).exit =
      Exit.returned (NewWithAttributes D.schemaURL (D.attrs ++ [serviceNameAttr])) := by
  have hset : NewSet [serviceNameAttr] = [serviceNameAttr] := rfl
  rcases h with ⟨ht, hd⟩ | ⟨ht, hd⟩
  · subst ht
    simp only [NewResource, if_true, hd, Merge_NewSchemaless, hset]
  · subst ht
    have hne : ¬ ("EKS" = "EC2") := by decide
    simp only [NewResource, if_neg hne, if_true, hd, Merge_NewSchemaless, hset]

/-- Every exit of `NewResource` that returns, returns a resource with the service name. -/
theorem NewResource_returned_has_service_name (resType : String)
    (detect : Detector → Except String Resource) (r : Resource)
    (h : (NewResource resType detect).exit = Exit.returned r) :
    setValue ServiceNameKey r.attrs = some (Value.str SERVICE_NAME) := by
  have hmerged : ∀ D : Resource,
      setValue ServiceNameKey (NewWithAttributes D.schemaURL (D.attrs ++ [serviceNameAttr])).attrs
        = some (Value.str SERVICE_NAME) := by
    intro D
    simp [NewWithAttributes, setValue_NewSet, setValue_append, setValue, serviceNameAttr]
  by_cases h1 : resType = "EC2"
  · cases hd : detect Detector.EC2 with
    | error e =>
      simp [NewResource, h1, hd] at h
    | ok D =>
      rw [NewResource_of_detected resType detect D (Or.inl ⟨h1, hd⟩)] at h
      injection h with h
      rw [← h]
      exact hmerged D
  · by_cases h2 : resType = "EKS"
    · cases hd : detect Detector.EKS with
      | error e =>
        simp [NewResource, h1, h2, hd] at h
      | ok D =>
        rw [NewResource_of_detected resType detect D (Or.inr ⟨h2, hd⟩)] at h
        injection h with h
        rw [← h]
        exact hmerged D
    · simp only [NewResource, if_neg h1, if_neg h2] at h
      injection h with h
      rw [← h]
      rfl

/-! ## Claims about `NewResource` -/

/-- C8: for every value of the `RESOURCE_TYPE` selector other than exactly "EC2" and exactly
"EKS", whatever the detectors would answer, `NewResource` invokes no detector, does not end
in `log.Fatalf`, and returns a resource whose attribute set is exactly the single attribute
`service.name = "OTELDemo"`. -/
theorem NewResource_default (resType : String) (detect : Detector → Except String Resource)
    (h1 : resType ≠ "EC2") (h2 : resType ≠ "EKS") :
    NewResource resType detect =
      { detected := []
        exit := Exit.returned
          { schemaURL := SchemaURL, attrs := [⟨"service.name", Value.str "OTELDemo"⟩] } } := by
  simp only [NewResource, if_neg h1, if_neg h2]
  rfl

theorem NewResource_default_witness :
    "ec2" ≠ "EC2" ∧ "ec2" ≠ "EKS" ∧
    NewResource "ec2" (fun _ => Except.error "no metadata service") =
      { detected := []
        exit := Exit.returned
          { schemaURL := SchemaURL, attrs := [⟨"service.name", Value.str "OTELDemo"⟩] } } ∧
    NewResource "" (fun _ => Except.error "no metadata service") =
      { detected := []
        exit := Exit.returned
          { schemaURL := SchemaURL, attrs := [⟨"service.name", Value.str "OTELDemo"⟩] } } :=
  ⟨by decide, by decide, NewResource_default "ec2" _ (by decide) (by decide),
    NewResource_default "" _ (by decide) (by decide)⟩

/-- C9: for selector "EC2" or "EKS" and every resource `D` the selected detector answers,
`NewResource` returns a resource whose keys are those of `D` together with `service.name`
(each once), in which `service.name` is `SERVICE_NAME` even when `D` binds it otherwise, and
every other key keeps the value `D` gives it. Consequently every resource `NewResource`
returns, on any branch, binds `service.name` to `SERVICE_NAME`. -/
theorem NewResource_merges_service_name (resType : String)
    (detect : Detector → Except String Resource) (D : Resource)
    (h : (resType = "EC2" ∧ detect Detector.EC2 = Except.ok D) ∨
      (resType = "EKS" ∧ detect Detector.EKS = Except.ok D)) :
    (∃ r : Resource,
      (NewResource resType detect).exit = Exit.returned r ∧
      (∀ k : String, k ∈ keysOf r.attrs ↔ k ∈ keysOf D.attrs ∨ k = ServiceNameKey) ∧
      (keysOf r.attrs).Nodup ∧
      setValue ServiceNameKey r.attrs = some (Value.str SERVICE_NAME) ∧
      (∀ k : String, k ≠ ServiceNameKey → setValue k r.attrs = setValue k D.attrs)) ∧
    (∀ (t : String) (dt : Detector → Except String Resource) (r : Resource),
      (NewResource t dt).exit = Exit.returned r →
        setValue ServiceNameKey r.attrs = some (Value.str SERVICE_NAME)) := by
  refine ⟨⟨_, NewResource_of_detected resType detect D h, ?_, ?_, ?_, ?_⟩,
    fun t dt r hr => NewResource_returned_has_service_name t dt r hr⟩
  · intro k
    rw [mem_keysOf_iff, mem_keysOf_iff]
    simp only [NewWithAttributes, setValue_NewSet, setValue_append, setValue, serviceNameAttr]
    by_cases hk : ServiceNameKey = k
    · simp [hk]
    · have hk2 : ¬ k = ServiceNameKey := fun e => hk e.symm
      simp [hk, hk2]
  · exact keysOf_NewSet_nodup _
  · simp [NewWithAttributes, setValue_NewSet, setValue_append, setValue, serviceNameAttr]
  · intro k hk
    have hk2 : ¬ ServiceNameKey = k := fun e => hk e.symm
    simp [NewWithAttributes, setValue_NewSet, setValue_append, setValue, serviceNameAttr, hk2]

theorem NewResource_merges_service_name_witness :
    (("EC2" = "EC2" ∧ exampleDetect Detector.EC2 = Except.ok exampleDetected) ∨
      ("EC2" = "EKS" ∧ exampleDetect Detector.EKS = Except.ok exampleDetected)) ∧
    ((∃ r : Resource,
      (NewResource "EC2" exampleDetect).exit = Exit.returned r ∧
      (∀ k : String, k ∈ keysOf r.attrs ↔ k ∈ keysOf exampleDetected.attrs ∨ k = ServiceNameKey) ∧
      (keysOf r.attrs).Nodup ∧
      setValue ServiceNameKey r.attrs = some (Value.str SERVICE_NAME) ∧
      (∀ k : String, k ≠ ServiceNameKey →
        setValue k r.attrs = setValue k exampleDetected.attrs)) ∧
    (∀ (t : String) (dt : Detector → Except String Resource) (r : Resource),
      (NewResource t dt).exit = Exit.returned r →
        setValue ServiceNameKey r.attrs = some (Value.str SERVICE_NAME))) :=
  ⟨Or.inl ⟨rfl, rfl⟩,
    NewResource_merges_service_name "EC2" exampleDetect exampleDetected (Or.inl ⟨rfl, rfl⟩)⟩

end OtelExample

